import Mathlib

/-!
Verification of the tool-augmented turn orchestrator of the mcp-chat-client
backend (src/backend/app/agent.py and src/backend/app/main.py).

The embedding translates the pure, deterministic parts of the Python source:
server-config resolution (get_mcp_server_config), conversation assembly
(MCPAgentBuilder.build_messages and the system-prompt prepend performed by
its callers), the blocking-mode result extraction of run_agent, the tool
error-handling preparation, and the streaming event production of
stream_agent together with the SSE wrapper event_generator of main.py.
External collaborators (the language model, the LangGraph reasoning loop and
the MCP tool servers) are represented by their observable outputs: the
message trace a blocking run yields, and the engine event feed a streaming
run consumes, both taken as arbitrary inputs.
-/

namespace MCPChat

/-- A message of the caller-supplied conversation history
(schemas.ChatMessage): a free-form role string and a content string.
The role field carries no validator in the source, so any string can reach
the assembler. -/
structure ChatMessage where
  role : String
  content : String
  deriving DecidableEq, Repr

/-- The LangChain message values manipulated by the orchestrator:
SystemMessage, HumanMessage and AIMessage. -/
inductive BaseMessage where
  | system (content : String)
  | human (content : String)
  | ai (content : String)
  deriving DecidableEq, Repr

/-- Content of a LangChain message. -/
def BaseMessage.content : BaseMessage → String
  | .system c => c
  | .human c => c
  | .ai c => c

/-- Reading a LangChain message back as a history entry, with the role
string each constructor corresponds to in build_messages. -/
def BaseMessage.toChat : BaseMessage → ChatMessage
  | .system c => ⟨"system", c⟩
  | .human c => ⟨"user", c⟩
  | .ai c => ⟨"assistant", c⟩

/-- The role dispatch of MCPAgentBuilder.build_messages, agent.py lines
75 to 79: role "user" becomes a HumanMessage, role "assistant" becomes an
AIMessage, and any other role falls through both branches and is dropped. -/
def chatToBase? (msg : ChatMessage) : Option BaseMessage :=
  if msg.role = "user" then some (.human msg.content)
  else if msg.role = "assistant" then some (.ai msg.content)
  else none

/-- MCPAgentBuilder.build_messages, agent.py lines 66 to 82: replay the
history through the role dispatch, then append the new user message. -/
def build_messages (user_message : String) (conversation_history : List ChatMessage) :
    List BaseMessage :=
  conversation_history.filterMap chatToBase? ++ [.human user_message]

/-- The full conversation assembly both run_agent (line 159) and
stream_agent (line 236) perform: a SystemMessage prepended to the
build_messages output. -/
def assemble (system_prompt : String) (history : List ChatMessage) (user_message : String) :
    List BaseMessage :=
  BaseMessage.system system_prompt :: build_messages user_message history

/-- The assembler output as section 4.3 of the specification words it:
one system message, then every history message verbatim in order, then the
new user message. Stated over history entries so it can be compared with
the source assembler read back through BaseMessage.toChat. -/
def assembleAsSpecified (system_prompt : String) (history : List ChatMessage)
    (new_message : String) : List ChatMessage :=
  ⟨"system", system_prompt⟩ :: history ++ [⟨"user", new_message⟩]

/-- A subprocess launch specification as built by get_mcp_server_config:
command, argument list and transport kind. -/
structure ServerSpec where
  command : String
  args : List String
  transport : String
  deriving DecidableEq, Repr

/-- The filesystem server entry built at agent.py lines 36 to 44. -/
def filesystemSpec (path : String) : ServerSpec :=
  { command := "npx"
    args := ["-y", "@modelcontextprotocol/server-filesystem", path]
    transport := "stdio" }

/-- Python dict assignment on a string-keyed mapping kept as an insertion
ordered association list: an existing key is updated in place, a new key is
appended. -/
def dictInsert (d : List (String × ServerSpec)) (k : String) (v : ServerSpec) :
    List (String × ServerSpec) :=
  if d.any (fun p => p.1 = k) then d.map (fun p => if p.1 = k then (k, v) else p)
  else d ++ [(k, v)]

/-- The body of the for loop of get_mcp_server_config, agent.py lines 33
to 44: each identifier equal to the filesystem member inserts the
filesystem spec, anything else is ignored. Identifiers are carried as
strings because MCPType is a str-valued enumeration. -/
def configLoop (config : List (String × ServerSpec)) (filesystem_path : String) :
    List String → List (String × ServerSpec)
  | [] => config
  | mcp_type :: rest =>
      if mcp_type = "filesystem" then
        configLoop (dictInsert config "filesystem" (filesystemSpec filesystem_path))
          filesystem_path rest
      else configLoop config filesystem_path rest

/-- get_mcp_server_config, agent.py lines 18 to 46, with the hardcoded
default for the filesystem_path parameter. -/
def get_mcp_server_config (selected_mcps : List String)
    (filesystem_path : String := "/Users/mohitpaddhariya") : List (String × ServerSpec) :=
  configLoop [] filesystem_path selected_mcps

/-- The process configuration of config.py (Settings). -/
structure Settings where
  google_api_key : String
  model_name : String
  filesystem_allowed_path : String
  host : String
  port : Nat
  deriving DecidableEq, Repr

/-- The MCP config built inside run_agent at agent.py line 121: the call
passes no path argument, so the default applies whatever the process
settings hold. The Settings argument records that the ambient configuration
is available to the process yet unused by this call. -/
def run_agent_mcp_config (st : Settings) (selected : List String) :
    List (String × ServerSpec) :=
  get_mcp_server_config selected

/-- The MCP config built inside stream_agent at agent.py line 197, same
shape as the blocking path. -/
def stream_agent_mcp_config (st : Settings) (selected : List String) :
    List (String × ServerSpec) :=
  get_mcp_server_config selected

/-- A discovered tool as the orchestrator sees it: its name and the
mutable handle_tool_error flag the source sets. -/
structure Tool where
  name : String
  handle_tool_error : Bool
  deriving DecidableEq, Repr

/-- The preparation loop of run_agent, agent.py lines 142 to 143: every
discovered tool gets handle_tool_error set to true before the ReAct agent
is created. -/
def run_agent_prepared_tools (tools : List Tool) : List Tool :=
  tools.map fun t => { t with handle_tool_error := true }

/-- The identical preparation loop of stream_agent, agent.py lines 221
to 222. -/
def stream_agent_prepared_tools (tools : List Tool) : List Tool :=
  tools.map fun t => { t with handle_tool_error := true }

/-- A tool call recorded on an assistant message of the reasoning-loop
trace. -/
structure ToolCall where
  name : String
  deriving DecidableEq, Repr

/-- A message of the trace the reasoning loop returns to run_agent:
system, human, assistant (possibly carrying tool calls) or tool-result
messages. -/
inductive TraceMessage where
  | system (content : String)
  | human (content : String)
  | ai (content : String) (tool_calls : List ToolCall)
  | tool (content : String)
  deriving DecidableEq, Repr

/-- Content of a trace message. -/
def TraceMessage.content : TraceMessage → String
  | .system c => c
  | .human c => c
  | .ai c _ => c
  | .tool c => c

/-- The tool_calls attribute read at agent.py line 171: present and
possibly non-empty only on assistant messages. -/
def TraceMessage.toolCalls : TraceMessage → List ToolCall
  | .ai _ tcs => tcs
  | _ => []

/-- Whether the trace ends in an assistant message, the reading of a
"terminal assistant message" in the specification. -/
def TraceMessage.isAssistant : TraceMessage → Bool
  | .ai _ _ => true
  | _ => false

/-- True when the last trace message exists and is an assistant message. -/
def hasTerminalAIMessage (trace : List TraceMessage) : Bool :=
  match trace.getLast? with
  | some m => m.isAssistant
  | none => false

/-- The extraction loop of run_agent, agent.py lines 170 to 173: walk the
trace in order and collect every tool-call name. -/
def extractToolsUsed : List TraceMessage → List String
  | [] => []
  | m :: ms => m.toolCalls.map ToolCall.name ++ extractToolsUsed ms

/-- The response extraction of run_agent, agent.py lines 176 to 177: the
content of the last trace message, or the fixed fallback string when the
trace is empty. -/
def extractResponse (final_messages : List TraceMessage) : String :=
  match final_messages.getLast? with
  | some m => m.content
  | none => "No response generated."

/-- The pair run_agent returns in the tooled branch, agent.py line 182,
as a function of the trace produced by the external reasoning loop. -/
def run_agent_result (trace : List TraceMessage) : String × List String :=
  (extractResponse trace, extractToolsUsed trace)

/-- An event of the astream_events feed that stream_agent consumes,
agent.py lines 240 to 274: model token chunks, tool-invocation start and
end events, and every other event kind (grouped, since the source ignores
them all). Tool inputs and outputs are carried in their stringified form,
the shape in which the source forwards them. -/
inductive EngineEvent where
  | chatModelStream (content : String)
  | toolStart (name : String) (input : String)
  | toolEnd (name : String) (output : String)
  | other
  deriving DecidableEq, Repr

/-- One wire event of the streaming protocol, the dictionaries yielded by
stream_agent and event_generator. -/
inductive StreamEvent where
  | token (content : String)
  | toolStart (tool : String) (input : String)
  | toolEnd (tool : String) (output : String)
  | done (tools_used : List String)
  | error (message : String)
  deriving DecidableEq, Repr

/-- A terminal event of the protocol: done or error. -/
def StreamEvent.isTerminal : StreamEvent → Bool
  | .done _ => true
  | .error _ => true
  | _ => false

/-- The event mapping loop of stream_agent over the engine feed, agent.py
lines 240 to 274, carrying the running tools_used accumulator: a non-empty
model chunk becomes a token event; a tool start appends its name to
tools_used and becomes a tool_start event; a tool end becomes a tool_end
event with the output truncated to 500 characters; every other event kind
is skipped. Returns the yielded events and the final tools_used list. -/
def streamLoop (tools_used : List String) :
    List EngineEvent → List StreamEvent × List String
  | [] => ([], tools_used)
  | .chatModelStream c :: es =>
      (if c = "" then (streamLoop tools_used es).1
       else .token c :: (streamLoop tools_used es).1,
       (streamLoop tools_used es).2)
  | .toolStart n i :: es =>
      (.toolStart n i :: (streamLoop (tools_used ++ [n]) es).1,
       (streamLoop (tools_used ++ [n]) es).2)
  | .toolEnd n o :: es =>
      (.toolEnd n (o.take 500) :: (streamLoop tools_used es).1,
       (streamLoop tools_used es).2)
  | .other :: es => streamLoop tools_used es

/-- The no-tools streaming branch of stream_agent, agent.py lines 205 to
207: one token event per non-empty chunk of the completion stream. -/
def noToolsTokens (chunks : List String) : List StreamEvent :=
  chunks.filterMap fun c => if c = "" then none else some (.token c)

/-- What the external engines feed one streaming turn: either the
completion token stream of the no-tools branch, or the astream_events feed
of the tooled branch. -/
inductive TurnFeed where
  | noTools (chunks : List String)
  | withTools (events : List EngineEvent)
  deriving Repr

/-- The full event sequence stream_agent yields when the underlying feed
completes naturally: the mapped events followed by the single done event,
agent.py lines 209 and 277. -/
def stream_agent_output : TurnFeed → List StreamEvent
  | .noTools chunks => noToolsTokens chunks ++ [.done []]
  | .withTools events =>
      (streamLoop [] events).1 ++ [.done (streamLoop [] events).2]

/-- The events stream_agent has yielded after consuming only the first k
feed items, the prefix visible when the underlying capability raises at
that point (before any done event is reached). -/
def stream_agent_produced : TurnFeed → Nat → List StreamEvent
  | .noTools chunks, k => noToolsTokens (chunks.take k)
  | .withTools events, k => (streamLoop [] (events.take k)).1

/-- event_generator of chat_stream, main.py lines 150 to 170: forward
every event of stream_agent; when the underlying capability raises after k
feed items with some message, the try block around the whole loop catches
it and appends a single error event instead of re-raising. The function is
total: no exception reaches the consumer. -/
def event_generator (feed : TurnFeed) : Option (Nat × String) → List StreamEvent
  | none => stream_agent_output feed
  | some (k, msg) => stream_agent_produced feed k ++ [.error msg]

/-- A well-terminated wire sequence: non-empty, its last event terminal,
and no terminal event anywhere before the last. -/
def terminatesProperly (l : List StreamEvent) : Bool :=
  match l.getLast? with
  | some e => e.isTerminal && l.dropLast.all (fun x => !x.isTerminal)
  | none => false

/-- The sequence ends in a done event. -/
def lastIsDone (l : List StreamEvent) : Bool :=
  match l.getLast? with
  | some (.done _) => true
  | _ => false

/-- The sequence ends in an error event. -/
def lastIsError (l : List StreamEvent) : Bool :=
  match l.getLast? with
  | some (.error _) => true
  | _ => false

/-- The tool names of the tool_start events of a wire sequence, in
emission order. -/
def emittedToolStarts (l : List StreamEvent) : List String :=
  l.filterMap fun e =>
    match e with
    | .toolStart n _ => some n
    | _ => none

/-- The tool names of the tool-start events of an engine feed, in feed
order. -/
def engineToolStartNames (evs : List EngineEvent) : List String :=
  evs.filterMap fun e =>
    match e with
    | .toolStart n _ => some n
    | _ => none

/-! Helper lemmas shared by the claim theorems. -/

theorem streamLoop_no_terminal (evs : List EngineEvent) (acc : List String) :
    ∀ e ∈ (streamLoop acc evs).1, e.isTerminal = false := by
  induction evs generalizing acc with
  | nil => intro e he; simp [streamLoop] at he
  | cons hd tl ih =>
    cases hd with
    | chatModelStream c =>
      intro e he
      simp only [streamLoop] at he
      by_cases hc : c = ""
      · rw [if_pos hc] at he
        exact ih acc e he
      · rw [if_neg hc] at he
        rcases List.mem_cons.mp he with rfl | he
        · rfl
        · exact ih acc e he
    | toolStart n i =>
      intro e he
      simp only [streamLoop] at he
      rcases List.mem_cons.mp he with rfl | he
      · rfl
      · exact ih (acc ++ [n]) e he
    | toolEnd n o =>
      intro e he
      simp only [streamLoop] at he
      rcases List.mem_cons.mp he with rfl | he
      · rfl
      · exact ih acc e he
    | other =>
      intro e he
      simp only [streamLoop] at he
      exact ih acc e he

theorem streamLoop_snd (evs : List EngineEvent) (acc : List String) :
    (streamLoop acc evs).2 = acc ++ engineToolStartNames evs := by
  induction evs generalizing acc with
  | nil => simp [streamLoop, engineToolStartNames]
  | cons hd tl ih =>
    cases hd with
    | chatModelStream c => simp [streamLoop, engineToolStartNames, ih]
    | toolStart n i =>
      simp [streamLoop, engineToolStartNames, ih, List.filterMap_cons]
    | toolEnd n o => simp [streamLoop, engineToolStartNames, ih]
    | other => simp [streamLoop, engineToolStartNames, ih]

theorem streamLoop_emitted (evs : List EngineEvent) (acc : List String) :
    emittedToolStarts (streamLoop acc evs).1 = engineToolStartNames evs := by
  induction evs generalizing acc with
  | nil => simp [streamLoop, emittedToolStarts, engineToolStartNames]
  | cons hd tl ih =>
    cases hd with
    | chatModelStream c =>
      by_cases hc : c = "" <;>
        simp [streamLoop, emittedToolStarts, engineToolStartNames, hc, ih,
          List.filterMap_cons] <;>
        exact ih acc
    | toolStart n i =>
      simp [streamLoop, emittedToolStarts, engineToolStartNames,
        List.filterMap_cons]
      exact ih (acc ++ [n])
    | toolEnd n o =>
      simp [streamLoop, emittedToolStarts, engineToolStartNames,
        List.filterMap_cons]
      exact ih acc
    | other =>
      simp [streamLoop, emittedToolStarts, engineToolStartNames,
        List.filterMap_cons]
      exact ih acc

theorem noToolsTokens_no_terminal (chunks : List String) :
    ∀ e ∈ noToolsTokens chunks, e.isTerminal = false := by
  intro e he
  simp only [noToolsTokens, List.mem_filterMap] at he
  obtain ⟨c, _, hc⟩ := he
  by_cases h : c = ""
  · rw [if_pos h] at hc; cases hc
  · rw [if_neg h] at hc
    cases hc
    rfl

theorem emittedToolStarts_noToolsTokens (chunks : List String) :
    emittedToolStarts (noToolsTokens chunks) = [] := by
  induction chunks with
  | nil => rfl
  | cons c cs ih =>
    by_cases h : c = "" <;>
      simp [noToolsTokens, emittedToolStarts, h, List.filterMap_cons] at ih ⊢ <;>
      simpa [noToolsTokens, emittedToolStarts] using ih

theorem terminatesProperly_concat (l : List StreamEvent) (t : StreamEvent)
    (hl : ∀ e ∈ l, e.isTerminal = false) (ht : t.isTerminal = true) :
    terminatesProperly (l ++ [t]) = true := by
  unfold terminatesProperly
  rw [List.getLast?_concat, List.dropLast_concat]
  simp only [ht, Bool.true_and, List.all_eq_true]
  intro e he
  simp [hl e he]

theorem dictInsert_filesystem_same (path : String) :
    dictInsert [("filesystem", filesystemSpec path)] "filesystem" (filesystemSpec path) =
      [("filesystem", filesystemSpec path)] := by
  simp [dictInsert]

theorem configLoop_saturated (l : List String) (path : String) :
    configLoop [("filesystem", filesystemSpec path)] path l =
      [("filesystem", filesystemSpec path)] := by
  induction l with
  | nil => rfl
  | cons hd tl ih =>
    by_cases h : hd = "filesystem"
    · simp [configLoop, h, dictInsert_filesystem_same, ih]
    · simp [configLoop, h, ih]

theorem get_mcp_server_config_eq (selected : List String) (path : String) :
    get_mcp_server_config selected path =
      (if "filesystem" ∈ selected then [("filesystem", filesystemSpec path)] else []) := by
  induction selected with
  | nil => rfl
  | cons hd tl ih =>
    by_cases h : hd = "filesystem"
    · subst h
      simp only [get_mcp_server_config, configLoop, if_pos rfl]
      have : dictInsert [] "filesystem" (filesystemSpec path) =
          [("filesystem", filesystemSpec path)] := by simp [dictInsert]
      rw [this, configLoop_saturated]
      simp
    · simp only [get_mcp_server_config, configLoop, if_neg h] at ih ⊢
      rw [ih]
      have hne : "filesystem" ≠ hd := fun hh => h hh.symm
      simp [List.mem_cons, hne]

theorem filterMap_chatToBase_eq_filter_map (history : List ChatMessage) :
    history.filterMap chatToBase? =
      (history.filter fun m => m.role = "user" || m.role = "assistant").map
        fun m => if m.role = "user" then BaseMessage.human m.content
                 else BaseMessage.ai m.content := by
  induction history with
  | nil => rfl
  | cons hd tl ih =>
    by_cases hu : hd.role = "user"
    · simp [List.filterMap_cons, List.filter_cons, chatToBase?, hu, ih]
    · by_cases ha : hd.role = "assistant"
      · simp [List.filterMap_cons, List.filter_cons, chatToBase?, hu, ha, ih]
      · simp [List.filterMap_cons, List.filter_cons, chatToBase?, hu, ha, ih]

theorem filterMap_toChat_roundtrip (history : List ChatMessage) :
    ((history.filterMap chatToBase?).map BaseMessage.toChat).filterMap chatToBase? =
      history.filterMap chatToBase? := by
  induction history with
  | nil => rfl
  | cons hd tl ih =>
    by_cases hu : hd.role = "user"
    · simp [List.filterMap_cons, chatToBase?, hu, BaseMessage.toChat, ih]
    · by_cases ha : hd.role = "assistant"
      · simp [List.filterMap_cons, chatToBase?, hu, ha, BaseMessage.toChat, ih]
      · simp [List.filterMap_cons, chatToBase?, hu, ha, ih]

/-! Claim theorems. -/

/-- C1: For every streaming turn, whatever the engine feed and whether the
underlying capability completes naturally or raises after any number of
consumed feed items, the consumer-visible event sequence produced by
event_generator is non-empty, ends with a terminal event, contains no
terminal event before its last position (so no token, tool_start or
tool_end follows the terminal event), ends in the single done event on
natural completion, and ends in the single error event when the capability
raises; the wrapper being a total function reflects that the exception is
caught and never reaches the consumer. -/
theorem stream_terminal_event_unique (feed : TurnFeed) (exc : Option (Nat × String)) :
    terminatesProperly (event_generator feed exc) = true ∧
    lastIsDone (event_generator feed none) = true ∧
    (∀ k msg, lastIsError (event_generator feed (some (k, msg))) = true) := by
  refine ⟨?_, ?_, ?_⟩
  · cases exc with
    | none =>
      cases feed with
      | noTools chunks =>
        exact terminatesProperly_concat _ _ (noToolsTokens_no_terminal chunks) rfl
      | withTools events =>
        exact terminatesProperly_concat _ _ (streamLoop_no_terminal events []) rfl
    | some p =>
      obtain ⟨k, msg⟩ := p
      cases feed with
      | noTools chunks =>
        exact terminatesProperly_concat _ _
          (noToolsTokens_no_terminal (chunks.take k)) rfl
      | withTools events =>
        exact terminatesProperly_concat _ _
          (streamLoop_no_terminal (events.take k) []) rfl
  · cases feed <;>
      simp [event_generator, stream_agent_output, lastIsDone, List.getLast?_concat]
  · intro k msg
    cases feed <;>
      simp [event_generator, stream_agent_produced, lastIsError, List.getLast?_concat]

/-- C2 counterexample: at system prompt "S", a one-element history whose
role is "note" and new message "hi", the assembled sequence read back as
history entries is not the spec-worded system-then-verbatim-history
sequence: the foreign-role history message has been dropped. -/
theorem assemble_drops_foreign_role :
    (assemble "S" [⟨"note", "x"⟩] "hi").map BaseMessage.toChat ≠
      assembleAsSpecified "S" [⟨"note", "x"⟩] "hi" := by
  decide

/-- C2 (amended): the assembled sequence is exactly one system message,
followed by those history messages whose role is "user" or "assistant",
verbatim and in their original order, followed by the new user message;
history messages with any other role are silently dropped. -/
theorem assemble_keeps_user_assistant (sys new : String) (history : List ChatMessage) :
    assemble sys history new =
      BaseMessage.system sys ::
        ((history.filter fun m => m.role = "user" || m.role = "assistant").map
          fun m => if m.role = "user" then BaseMessage.human m.content
                   else BaseMessage.ai m.content)
        ++ [BaseMessage.human new] := by
  simp [assemble, build_messages, filterMap_chatToBase_eq_filter_map]

/-- C3 counterexample: with discovered tools read_file, write_file and
list_directory, a reasoning-loop trace whose assistant message records a
tool call named ghost_tool makes run_agent return ghost_tool in
tools_used although it is outside the discovered set — the extraction
performs no membership check. -/
theorem toolsUsed_outside_discovered :
    (run_agent_result [TraceMessage.ai "" [⟨"ghost_tool"⟩]]).2 = ["ghost_tool"] ∧
    "ghost_tool" ∉ (["read_file", "write_file", "list_directory"] : List String) := by
  decide

/-- C3 (amended): every name in the tools_used list of a blocking turn is
a tool-call name recorded in the reasoning-loop trace; it lies in the
discovered ToolDescriptor set provided every tool call in the trace names
a discovered tool, an assumption on the external loop that the code itself
does not enforce. -/
theorem run_agent_toolsUsed_sound (discovered : List String) (trace : List TraceMessage)
    (h : ∀ m ∈ trace, ∀ tc ∈ TraceMessage.toolCalls m, tc.name ∈ discovered) :
    ∀ n ∈ (run_agent_result trace).2, n ∈ discovered := by
  intro n hn
  induction trace with
  | nil => simp [run_agent_result, extractToolsUsed] at hn
  | cons m ms ih =>
    simp only [run_agent_result, extractToolsUsed, List.mem_append,
      List.mem_map] at hn
    rcases hn with ⟨tc, htc, rfl⟩ | hn
    · exact h m (List.mem_cons_self m ms) tc htc
    · exact ih (fun m' hm' => h m' (List.mem_cons_of_mem _ hm'))
        (by simpa [run_agent_result] using hn)

/-- Witness for the amended C3 theorem at a concrete trace whose single
tool call names the discovered tool read_file. -/
theorem run_agent_toolsUsed_sound_witness :
    "read_file" ∈ (["read_file"] : List String) :=
  run_agent_toolsUsed_sound ["read_file"] [TraceMessage.ai "done" [⟨"read_file"⟩]]
    (by decide) "read_file" (by decide)

/-- C4: in every streaming turn that completes naturally, the event
sequence is a body containing no terminal event followed by the single
done event, and the tools_used list that done event carries equals,
element for element and in order, the tool names of the tool_start events
emitted in that body; this holds for the tooled branch and, trivially with
the empty list, for the no-tools branch. -/
theorem done_lists_tool_start_names (evs : List EngineEvent) (chunks : List String) :
    stream_agent_output (.withTools evs) =
      (streamLoop [] evs).1 ++ [.done (emittedToolStarts (streamLoop [] evs).1)] ∧
    stream_agent_output (.noTools chunks) =
      noToolsTokens chunks ++ [.done (emittedToolStarts (noToolsTokens chunks))] := by
  constructor
  · simp [stream_agent_output, streamLoop_emitted, streamLoop_snd]
  · simp [stream_agent_output, emittedToolStarts_noToolsTokens]

/-- C6: server-config resolution is order-independent (permuting the
selected identifiers leaves the mapping unchanged), maps empty input to
the empty mapping, and resolves any input to exactly one filesystem spec
when the filesystem identifier is selected and nothing otherwise —
unrecognized identifiers are ignored silently. Embedded as a total pure
function of its arguments. -/
theorem get_mcp_server_config_resolution (selected other : List String) (path : String)
    (h : selected.Perm other) :
    get_mcp_server_config selected path = get_mcp_server_config other path ∧
    get_mcp_server_config [] path = [] ∧
    get_mcp_server_config selected path =
      (if "filesystem" ∈ selected then [("filesystem", filesystemSpec path)] else []) := by
  refine ⟨?_, rfl, get_mcp_server_config_eq selected path⟩
  rw [get_mcp_server_config_eq, get_mcp_server_config_eq]
  simp [h.mem_iff]

/-- Witness for the C6 theorem at the concrete selections
[filesystem, slack] and its permutation [slack, filesystem]. -/
theorem get_mcp_server_config_resolution_witness :
    get_mcp_server_config ["filesystem", "slack"] "/Users/mohitpaddhariya" =
      get_mcp_server_config ["slack", "filesystem"] "/Users/mohitpaddhariya" ∧
    get_mcp_server_config [] "/Users/mohitpaddhariya" = [] ∧
    get_mcp_server_config ["filesystem", "slack"] "/Users/mohitpaddhariya" =
      (if "filesystem" ∈ (["filesystem", "slack"] : List String) then
        [("filesystem", filesystemSpec "/Users/mohitpaddhariya")] else []) :=
  get_mcp_server_config_resolution ["filesystem", "slack"] ["slack", "filesystem"]
    "/Users/mohitpaddhariya" (by decide)

/-- C7: conversation assembly is idempotent under re-assembly from its own
output's tail: re-running assemble on the previous result minus its first
and last elements (read back as history entries) with the content of the
previous result's last element as the new message reproduces the previous
result exactly. -/
theorem assemble_reassemble (sys new_message : String) (history : List ChatMessage) :
    assemble sys
      (((assemble sys history new_message).drop 1).dropLast.map BaseMessage.toChat)
      (((assemble sys history new_message).getLastD (.human "")).content)
      = assemble sys history new_message := by
  have hform : assemble sys history new_message =
      (BaseMessage.system sys :: history.filterMap chatToBase?) ++
        [BaseMessage.human new_message] := by
    simp [assemble, build_messages]
  rw [hform, List.getLastD_concat]
  have hdrop : ((BaseMessage.system sys :: history.filterMap chatToBase?) ++
      [BaseMessage.human new_message]).drop 1 =
      history.filterMap chatToBase? ++ [BaseMessage.human new_message] := by
    simp
  rw [hdrop, List.dropLast_concat]
  simp [assemble, build_messages, BaseMessage.content]
  rw [← List.filterMap_map]
  exact filterMap_toChat_roundtrip history

/-- C8 counterexample: a trace consisting of one tool message contains no
terminal assistant message, yet run_agent returns that message's content
rather than the fixed fallback string — the source tests only for an empty
trace, not for the kind of the last message. -/
theorem no_terminal_assistant_not_fallback :
    hasTerminalAIMessage [TraceMessage.tool "raw output"] = false ∧
    (run_agent_result [TraceMessage.tool "raw output"]).1 ≠ "No response generated." := by
  decide

/-- C8 (amended): the blocking turn returns the fixed fallback string
exactly when the reasoning-loop trace is empty; for a non-empty trace the
responseText is the content of the last trace message whatever its kind,
and in both cases the call returns normally. -/
theorem run_agent_fallback_iff_empty (trace : List TraceMessage) :
    (trace = [] → (run_agent_result trace).1 = "No response generated.") ∧
    (∀ m, trace.getLast? = some m → (run_agent_result trace).1 = m.content) := by
  constructor
  · intro h
    subst h
    rfl
  · intro m hm
    simp [run_agent_result, extractResponse, hm]

/-- Witness for the amended C8 theorem: the empty trace yields the
fallback string, and a trace ending in a tool message yields that
message's content. -/
theorem run_agent_fallback_iff_empty_witness :
    (run_agent_result ([] : List TraceMessage)).1 = "No response generated." ∧
    (run_agent_result [TraceMessage.tool "raw output"]).1 =
      (TraceMessage.tool "raw output").content :=
  ⟨(run_agent_fallback_iff_empty []).1 rfl,
   (run_agent_fallback_iff_empty [TraceMessage.tool "raw output"]).2
     (TraceMessage.tool "raw output") rfl⟩

/-- C9: whenever the filesystem server is selected, the spec built for the
turn carries the hardcoded default allowed path, in both the blocking and
the streaming call sites, and the built configuration is identical for any
two process settings — FILESYSTEM_ALLOWED_PATH never reaches the spawned
server's spec because neither call site passes a path argument. -/
theorem filesystem_path_ignores_settings (st st2 : Settings) (selected : List String)
    (h : "filesystem" ∈ selected) :
    ("filesystem", filesystemSpec "/Users/mohitpaddhariya") ∈
      run_agent_mcp_config st selected ∧
    ("filesystem", filesystemSpec "/Users/mohitpaddhariya") ∈
      stream_agent_mcp_config st selected ∧
    run_agent_mcp_config st selected = run_agent_mcp_config st2 selected ∧
    stream_agent_mcp_config st selected = stream_agent_mcp_config st2 selected := by
  refine ⟨?_, ?_, rfl, rfl⟩ <;>
    simp [run_agent_mcp_config, stream_agent_mcp_config, get_mcp_server_config_eq, h]

/-- Witness for the C9 theorem at two concrete settings differing in
their configured allowed path. -/
theorem filesystem_path_ignores_settings_witness :
    ("filesystem", filesystemSpec "/Users/mohitpaddhariya") ∈
      run_agent_mcp_config ⟨"key", "gemini-2.0-flash", "/custom/path", "0.0.0.0", 8000⟩
        ["filesystem"] ∧
    ("filesystem", filesystemSpec "/Users/mohitpaddhariya") ∈
      stream_agent_mcp_config ⟨"key", "gemini-2.0-flash", "/custom/path", "0.0.0.0", 8000⟩
        ["filesystem"] ∧
    run_agent_mcp_config ⟨"key", "gemini-2.0-flash", "/custom/path", "0.0.0.0", 8000⟩
        ["filesystem"] =
      run_agent_mcp_config ⟨"key", "gemini-2.0-flash", "/other", "0.0.0.0", 8000⟩
        ["filesystem"] ∧
    stream_agent_mcp_config ⟨"key", "gemini-2.0-flash", "/custom/path", "0.0.0.0", 8000⟩
        ["filesystem"] =
      stream_agent_mcp_config ⟨"key", "gemini-2.0-flash", "/other", "0.0.0.0", 8000⟩
        ["filesystem"] :=
  filesystem_path_ignores_settings _ _ ["filesystem"] (by decide)

/-- C10: after the preparation loop that precedes agent creation, every
tool has handle_tool_error set to true, in the blocking and in the
streaming mode alike, and the preparation changes no tool name (the same
discovered tools, error handling enabled, reach the reasoning loop). -/
theorem tools_error_handling_enabled (tools : List Tool) :
    (∀ t ∈ run_agent_prepared_tools tools, t.handle_tool_error = true) ∧
    (∀ t ∈ stream_agent_prepared_tools tools, t.handle_tool_error = true) ∧
    (run_agent_prepared_tools tools).map Tool.name = tools.map Tool.name ∧
    (stream_agent_prepared_tools tools).map Tool.name = tools.map Tool.name := by
  refine ⟨?_, ?_, ?_, ?_⟩
  · intro t ht
    simp only [run_agent_prepared_tools, List.mem_map] at ht
    obtain ⟨u, _, rfl⟩ := ht
    rfl
  · intro t ht
    simp only [stream_agent_prepared_tools, List.mem_map] at ht
    obtain ⟨u, _, rfl⟩ := ht
    rfl
  · simp [run_agent_prepared_tools, List.map_map]
  · simp [stream_agent_prepared_tools, List.map_map]

/-- Witness for the C10 theorem at a concrete tool whose error handling
starts disabled. -/
theorem tools_error_handling_enabled_witness :
    (Tool.mk "read_file" true).handle_tool_error = true :=
  (tools_error_handling_enabled [Tool.mk "read_file" false]).1
    (Tool.mk "read_file" true) (by decide)

end MCPChat
